import Mathlib

/-!
Verification development for the disney-wait-time-collector repository.

The archival pipeline (`src/archive.py`) and the collector (`src/collect.py`)
are shallowly embedded below: Python strings become `List Char`, database
rows become lists of cells, the Google-Sheets service becomes an explicit
state value, and the `archive_table` while-loop becomes a fuel-indexed
recursive function.  Theorems `C1_*` .. `C10_*` settle the frozen claims.
-/

namespace DisneyArchive

/-! ### Decimal rendering and parsing (Python `str(int)` / `int(str)`) -/

/-- The character for one decimal digit, as Python renders it. -/
def digitChar (d : Nat) : Char := Char.ofNat (48 + d)

/-- Base-10 digits of `n`, least significant first, with structural fuel. -/
def digitsBase10 : Nat → Nat → List Nat
  | 0, _ => []
  | fuel + 1, n => if n = 0 then [] else (n % 10) :: digitsBase10 fuel (n / 10)

theorem digitsBase10_eq : ∀ (fuel n : Nat), n ≤ fuel → digitsBase10 fuel n = Nat.digits 10 n := by
  intro fuel
  induction fuel with
  | zero =>
    intro n hn
    have : n = 0 := Nat.le_zero.mp hn
    subst this
    simp [digitsBase10, Nat.digits_zero]
  | succ fuel ih =>
    intro n hn
    by_cases h0 : n = 0
    · subst h0
      simp [digitsBase10, Nat.digits_zero]
    · simp only [digitsBase10, if_neg h0]
      rw [ih (n / 10) (by omega)]
      rw [Nat.digits_def' (by norm_num) (Nat.pos_of_ne_zero h0)]

/-- Python `str(n)` for a natural number: decimal digits, most significant first. -/
def natToChars (n : Nat) : List Char :=
  if n = 0 then [Char.ofNat 48] else ((digitsBase10 n n).reverse).map digitChar

/-- Numeric value of one decimal digit character. -/
def charToDigit (c : Char) : Nat := c.toNat - 48

/-- Value of a digit string, most significant digit first (Python `int(s)` on digits). -/
def charsToNat (cs : List Char) : Nat :=
  Nat.ofDigits 10 ((cs.map charToDigit).reverse)

/-- Is `c` one of the characters 0-9? -/
def isDigitChar (c : Char) : Bool := 48 ≤ c.toNat && c.toNat ≤ 57

theorem charToDigit_digitChar {d : Nat} (h : d < 10) : charToDigit (digitChar d) = d := by
  interval_cases d <;> rfl

theorem isDigitChar_digitChar {d : Nat} (h : d < 10) : isDigitChar (digitChar d) = true := by
  interval_cases d <;> rfl

theorem charsToNat_natToChars (n : Nat) : charsToNat (natToChars n) = n := by
  by_cases h0 : n = 0
  · subst h0; rfl
  · unfold natToChars charsToNat
    rw [if_neg h0]
    rw [digitsBase10_eq n n le_rfl]
    rw [List.map_map]
    have hmap : ((Nat.digits 10 n).reverse).map (charToDigit ∘ digitChar)
        = ((Nat.digits 10 n).reverse).map id := by
      apply List.map_congr_left
      intro d hd
      have hd10 : d < 10 := Nat.digits_lt_base (by norm_num) (List.mem_reverse.mp hd)
      exact charToDigit_digitChar hd10
    rw [hmap, List.map_id, List.reverse_reverse, Nat.ofDigits_digits]

theorem natToChars_ne_nil (n : Nat) : natToChars n ≠ [] := by
  unfold natToChars
  by_cases h0 : n = 0
  · simp [h0]
  · rw [if_neg h0]
    rw [digitsBase10_eq n n le_rfl]
    intro h
    have hdig := (@Nat.digits_ne_nil_iff_ne_zero 10 n).mpr h0
    simp only [List.map_eq_nil_iff, List.reverse_eq_nil_iff] at h
    exact hdig h

theorem natToChars_all_digits (n : Nat) : ∀ c ∈ natToChars n, isDigitChar c = true := by
  intro c hc
  unfold natToChars at hc
  by_cases h0 : n = 0
  · rw [if_pos h0] at hc
    simp at hc
    subst hc; rfl
  · rw [if_neg h0, digitsBase10_eq n n le_rfl] at hc
    obtain ⟨d, hd, rfl⟩ := List.mem_map.mp hc
    exact isDigitChar_digitChar (Nat.digits_lt_base (by norm_num) (List.mem_reverse.mp hd))

/-- Python `str(v)` for an integer. -/
def intToChars (v : Int) : List Char :=
  if v < 0 then Char.ofNat 45 :: natToChars v.natAbs else natToChars v.toNat

/-- Parse a non-empty all-digit string as a natural number; `none` otherwise. -/
def parseNat (cs : List Char) : Option Nat :=
  if cs ≠ [] ∧ cs.all isDigitChar then some (charsToNat cs) else none

/-- Parse an optionally-negated decimal integer literal; `none` if malformed. -/
def parseInt (cs : List Char) : Option Int :=
  if cs.head? = some (Char.ofNat 45) then Option.map (fun n : Nat => -(n : Int)) (parseNat cs.tail)
  else Option.map (fun n : Nat => (n : Int)) (parseNat cs)

theorem parseNat_natToChars (n : Nat) : parseNat (natToChars n) = some n := by
  unfold parseNat
  rw [if_pos ⟨natToChars_ne_nil n, by
    rw [List.all_eq_true]; exact natToChars_all_digits n⟩]
  rw [charsToNat_natToChars]

theorem natToChars_head_digit (n : Nat) :
    ∀ c, natToChars n = c :: (natToChars n).tail → isDigitChar c = true := by
  intro c hc
  have : c ∈ natToChars n := by rw [hc]; exact List.mem_cons_self _ _
  exact natToChars_all_digits n c this

theorem parseInt_intToChars (v : Int) : parseInt (intToChars v) = some v := by
  unfold intToChars parseInt
  by_cases hv : v < 0
  · rw [if_pos hv]
    simp only [List.head?_cons, List.tail_cons, if_pos rfl, ite_true, parseNat_natToChars,
      Option.map_some', Option.some.injEq]
    omega
  · rw [if_neg hv]
    have h45 : (natToChars v.toNat).head? ≠ some (Char.ofNat 45) := by
      cases h : natToChars v.toNat with
      | nil => simp
      | cons c rest =>
        simp only [List.head?_cons, ne_eq, Option.some.injEq]
        intro hc
        have hcd : isDigitChar c = true :=
          natToChars_all_digits v.toNat c (by rw [h]; exact List.mem_cons_self _ _)
        subst hc
        exact absurd hcd (by decide)
    rw [if_neg h45, parseNat_natToChars]
    simp only [Option.map_some', Option.some.injEq]
    omega

/-! ### Timestamps, rows, and the per-job configuration -/

/-- A structured temporal value as the database driver returns it: the calendar
year (Python `.year`) plus the position within that year.  Timestamps order
lexicographically by year then position. -/
structure StructTime where
  year : Int
  sub : Int
deriving DecidableEq, Repr

/-- A timestamp cell as `archive.py` sees it: either a structured datetime/date
value, or a string (the `isinstance(row_date, str)` fallback). -/
inductive TsValue where
  | structured (t : StructTime)
  | strval (s : List Char)
deriving DecidableEq, Repr

/-- Lexicographic comparison of character lists: the database ordering of text. -/
def charListLE : List Char → List Char → Bool
  | [], _ => true
  | _ :: _, [] => false
  | a :: as, b :: bs => if a < b then true else if b < a then false else charListLE as bs

theorem charListLE_total : ∀ x y : List Char, charListLE x y || charListLE y x := by
  intro x
  induction x with
  | nil => intro y; simp [charListLE]
  | cons a as ih =>
    intro y
    cases y with
    | nil => simp [charListLE]
    | cons b bs =>
      simp only [charListLE]
      by_cases hab : a < b
      · simp [hab]
      · by_cases hba : b < a
        · simp [hab, hba]
        · simp only [if_neg hab, if_neg hba]
          exact ih bs

theorem charListLE_trans :
    ∀ x y z : List Char, charListLE x y → charListLE y z → charListLE x z := by
  intro x
  induction x with
  | nil => intro y z _ _; simp [charListLE]
  | cons a as ih =>
    intro y z h1 h2
    cases y with
    | nil => simp [charListLE] at h1
    | cons b bs =>
      cases z with
      | nil => simp [charListLE] at h2
      | cons c cs =>
        simp only [charListLE] at h1 h2 ⊢
        by_cases hab : a < b
        · by_cases hbc : b < c
          · rw [if_pos (lt_trans hab hbc)]
          · by_cases hcb : c < b
            · rw [if_pos hab] at h1
              rw [if_neg hbc, if_pos hcb] at h2
              exact absurd h2 (by simp)
            · have hbceq : b = c := le_antisymm (not_lt.mp hcb) (not_lt.mp hbc)
              subst hbceq
              rw [if_pos hab]
        · by_cases hba : b < a
          · rw [if_neg hab, if_pos hba] at h1
            exact absurd h1 (by simp)
          · have habeq : a = b := le_antisymm (not_lt.mp hba) (not_lt.mp hab)
            subst habeq
            rw [if_neg hab, if_neg hba] at h1
            by_cases hbc : a < c
            · rw [if_pos hbc]
            · by_cases hcb : c < a
              · rw [if_neg hbc, if_pos hcb] at h2
                exact absurd h2 (by simp)
              · rw [if_neg hbc, if_neg hcb] at h2 ⊢
                exact ih bs cs h1 h2

/-- Database ordering of the timestamp column (`ORDER BY ... ASC`): structured
values compare by (year, position) lexicographically, strings lexicographically;
a column never mixes the two so the cross cases are fixed arbitrarily. -/
def tsLEb : TsValue → TsValue → Bool
  | .structured a, .structured b =>
      a.year < b.year || (a.year == b.year && a.sub ≤ b.sub)
  | .strval a, .strval b => charListLE a b
  | .structured _, .strval _ => true
  | .strval _, .structured _ => false

/-- Strict comparison used by the `WHERE date < cutoff` predicate. -/
def tsLTb (a b : TsValue) : Bool := tsLEb a b && !(tsLEb b a)

theorem tsLEb_total : ∀ a b : TsValue, tsLEb a b || tsLEb b a := by
  intro a b
  cases a with
  | structured x =>
    cases b with
    | structured y =>
      simp only [tsLEb, Bool.or_eq_true, decide_eq_true_eq, Bool.and_eq_true, beq_iff_eq]
      omega
    | strval s => simp [tsLEb]
  | strval s =>
    cases b with
    | structured y => simp [tsLEb]
    | strval t => exact charListLE_total s t

theorem tsLEb_trans : ∀ a b c : TsValue, tsLEb a b → tsLEb b c → tsLEb a c := by
  intro a b c h1 h2
  cases a with
  | structured x =>
    cases c with
    | structured z =>
      cases b with
      | structured y =>
        simp only [tsLEb, Bool.or_eq_true, decide_eq_true_eq, Bool.and_eq_true,
          beq_iff_eq] at h1 h2 ⊢
        omega
      | strval s => simp [tsLEb] at h2
    | strval s => simp [tsLEb]
  | strval s =>
    cases b with
    | structured y => simp [tsLEb] at h1
    | strval t =>
      cases c with
      | structured z => simp [tsLEb] at h2
      | strval u => exact charListLE_trans s t u h1 h2

/-- Python `int(s)` (defaulting the error case, which never arises in claims). -/
def pyInt (cs : List Char) : Int := (parseInt cs).getD 0

/-- `row_date.year if not isinstance(row_date, str) else int(row_date[:4])`
(line 136 of `archive.py`). -/
def tsYear : TsValue → Int
  | .structured t => t.year
  | .strval s => pyInt (s.take 4)

/-- The value of `data_year` (lines 114-118): the raw first-four-character
string when the first row's date is a string, the `.year` integer otherwise. -/
inductive YearRepr where
  | ofString (s : List Char)
  | ofYear (y : Int)
deriving DecidableEq, Repr

def dataYearOf : TsValue → YearRepr
  | .strval s => .ofString (s.take 4)
  | .structured t => .ofYear t.year

/-- Python `int(data_year)` as evaluated in the year-boundary check (line 138). -/
def yearReprToInt : YearRepr → Int
  | .ofString s => pyInt s
  | .ofYear y => y

/-- How `data_year` renders inside the f-string `"Disney Archive - {year}"`. -/
def yearReprChars : YearRepr → List Char
  | .ofString s => s
  | .ofYear y => intToChars y

theorem yearReprToInt_dataYearOf (t : TsValue) : yearReprToInt (dataYearOf t) = tsYear t := by
  cases t <;> rfl

/-- One column value of a fetched row. -/
inductive Cell where
  | timeCell (t : TsValue)
  | intCell (n : Int)
  | textCell (s : List Char)
deriving DecidableEq, Repr

abbrev Row := List Cell

/-- Python `str(col)` (line 142): serialization of one cell for the sheet append. -/
def cellStr : Cell → List Char
  | .timeCell (.structured t) => intToChars t.year ++ (Char.ofNat 45 :: intToChars t.sub)
  | .timeCell (.strval s) => s
  | .intCell n => intToChars n
  | .textCell s => s

/-- Per-job configuration of `archive_table`: the page size, the positions of the
date and primary-key columns inside a row (`headers.index(...)`), and the value
of `NOW() - INTERVAL retention days` at the time of the run. -/
structure JobConfig where
  batchSize : Nat
  dateIdx : Nat
  pkIdx : Nat
  cutoff : TsValue
deriving Repr

/-- `row[date_col_index]` read as a timestamp. -/
def rowTs (cfg : JobConfig) (r : Row) : TsValue :=
  match r.getD cfg.dateIdx (.timeCell (.structured ⟨0, 0⟩)) with
  | .timeCell t => t
  | .intCell n => .structured ⟨n, 0⟩
  | .textCell s => .strval s

/-- `row[pk_index]` (line 144). -/
def pkCell (cfg : JobConfig) (r : Row) : Cell :=
  r.getD cfg.pkIdx (.intCell 0)

/-- Row ordering induced by the timestamp column. -/
def rowLEb (cfg : JobConfig) (a b : Row) : Bool := tsLEb (rowTs cfg a) (rowTs cfg b)

/-- The same ordering as a decidable relation, for the sort. -/
def rowLE (cfg : JobConfig) (a b : Row) : Prop := rowLEb cfg a b = true

instance rowLE.decidableRel (cfg : JobConfig) : DecidableRel (rowLE cfg) := fun a b =>
  instDecidableEqBool (rowLEb cfg a b) true

/-- The fetch query (lines 94-101):
`SELECT * FROM t WHERE date < NOW() - INTERVAL ... ORDER BY date ASC LIMIT batchSize`. -/
def fetchBatch (cfg : JobConfig) (src : List Row) : List Row :=
  (List.insertionSort (rowLE cfg) (src.filter (fun r => tsLTb (rowTs cfg r) cfg.cutoff))).take
    cfg.batchSize

/-- The per-row test of the slice scan (lines 135-140): keep the row while its
year equals `int(data_year)`. -/
def sliceCond (cfg : JobConfig) (dy : YearRepr) (r : Row) : Bool :=
  tsYear (rowTs cfg r) == yearReprToInt dy

/-- The leading same-year slice and the unconsumed remainder of one batch
(the `for row in rows` loop of lines 132-144, which breaks at the first row
of a different year). -/
def splitLeadingPartition (cfg : JobConfig) (rows : List Row) : List Row × List Row :=
  match rows with
  | [] => ([], [])
  | r :: _ =>
    let dy := dataYearOf (rowTs cfg r)
    (rows.takeWhile (sliceCond cfg dy), rows.dropWhile (sliceCond cfg dy))

theorem sliceCond_self (cfg : JobConfig) (r : Row) :
    sliceCond cfg (dataYearOf (rowTs cfg r)) r = true := by
  simp [sliceCond, yearReprToInt_dataYearOf]

/-- Repeated leading-slice extraction over one batch. -/
def partitionSlices (cfg : JobConfig) : List Row → List (List Row)
  | [] => []
  | r :: rest =>
    ((r :: rest).takeWhile (sliceCond cfg (dataYearOf (rowTs cfg r)))) ::
      partitionSlices cfg ((r :: rest).dropWhile (sliceCond cfg (dataYearOf (rowTs cfg r))))
termination_by l => l.length
decreasing_by
  simp only [List.dropWhile_cons, sliceCond_self cfg r, if_pos]
  exact Nat.lt_succ_of_le (List.Sublist.length_le (List.dropWhile_sublist _))

/-! ### The DELETE statement's IN-list (archive.py lines 156-161) -/

/-- Python `repr` of a tuple of integers, as the f-string would interpolate it:
`"(7,)"` for one element (trailing comma!), `"(7, 8)"` for more. -/
def pyTupleRepr (ids : List Int) : List Char :=
  match ids with
  | [] => [Char.ofNat 40, Char.ofNat 41]
  | [v] => Char.ofNat 40 :: (intToChars v ++ [Char.ofNat 44, Char.ofNat 41])
  | v :: rest =>
      Char.ofNat 40 ::
        (intToChars v ++
          ((rest.map (fun w => Char.ofNat 44 :: Char.ofNat 32 :: intToChars w)).flatten ++
            [Char.ofNat 41]))

/-- The text interpolated after `IN` (lines 157-159): the tuple repr, except that
a one-element list is rendered as `"(v)"` by the special case. -/
def renderInClause (ids : List Int) : List Char :=
  if ids.length = 1 then Char.ofNat 40 :: (intToChars (ids.getD 0 0) ++ [Char.ofNat 41])
  else pyTupleRepr ids

/-- Split a character list at commas (grammar of a SQL literal list). -/
def splitComma : List Char → List (List Char)
  | [] => [[]]
  | c :: rest =>
      if c = Char.ofNat 44 then [] :: splitComma rest
      else
        match splitComma rest with
        | [] => [[c]]
        | p :: ps => (c :: p) :: ps

/-- One element of a SQL IN-list: optional leading spaces then an integer literal. -/
def parsePiece (cs : List Char) : Option Int :=
  parseInt (cs.dropWhile (fun c => c = Char.ofNat 32))

/-- Parse every comma-separated piece; fail if any piece is malformed. -/
def parseAllPieces : List (List Char) → Option (List Int)
  | [] => some []
  | p :: ps =>
      match parsePiece p, parseAllPieces ps with
      | some v, some vs => some (v :: vs)
      | _, _ => none

/-- The set of values denoted by a parenthesized SQL integer list, or `none`
when the text is not well-formed (e.g. a trailing comma). -/
def wellFormedInList (cs : List Char) : Option (List Int) :=
  match cs with
  | c :: rest =>
      if c = Char.ofNat 40 then
        match rest.getLast? with
        | some d =>
            if d = Char.ofNat 41 then parseAllPieces (splitComma rest.dropLast) else none
        | none => none
      else none
  | [] => none

theorem splitComma_no_comma {l : List Char} (h : ∀ c ∈ l, c ≠ Char.ofNat 44) :
    splitComma l = [l] := by
  induction l with
  | nil => rfl
  | cons c rest ih =>
    have hc : c ≠ Char.ofNat 44 := h c (List.mem_cons_self _ _)
    have hrest : splitComma rest = [rest] := ih (fun d hd => h d (List.mem_cons_of_mem _ hd))
    simp [splitComma, hc, hrest]

theorem splitComma_append_comma {l r : List Char} (h : ∀ c ∈ l, c ≠ Char.ofNat 44) :
    splitComma (l ++ Char.ofNat 44 :: r) = l :: splitComma r := by
  induction l with
  | nil => simp [splitComma]
  | cons c rest ih =>
    have hc : c ≠ Char.ofNat 44 := h c (List.mem_cons_self _ _)
    have hrest := ih (fun d hd => h d (List.mem_cons_of_mem _ hd))
    simp only [List.cons_append, splitComma, if_neg hc, List.append_eq, hrest]

theorem intToChars_no_comma (v : Int) : ∀ c ∈ intToChars v, c ≠ Char.ofNat 44 := by
  intro c hc
  have hdig : isDigitChar c = true ∨ c = Char.ofNat 45 := by
    unfold intToChars at hc
    by_cases hv : v < 0
    · rw [if_pos hv] at hc
      rcases List.mem_cons.mp hc with h | h
      · right; exact h
      · left; exact natToChars_all_digits _ c h
    · rw [if_neg hv] at hc
      left; exact natToChars_all_digits _ c hc
  rcases hdig with h | h
  · intro heq
    subst heq
    exact absurd h (by decide)
  · subst h
    decide

theorem intToChars_head_not_space (v : Int) :
    (intToChars v).dropWhile (fun c => c = Char.ofNat 32) = intToChars v := by
  unfold intToChars
  by_cases hv : v < 0
  · rw [if_pos hv]
    rw [List.dropWhile_cons_of_neg (by decide)]
  · rw [if_neg hv]
    cases h : natToChars v.toNat with
    | nil => rfl
    | cons c rest =>
      have hcd : isDigitChar c = true :=
        natToChars_all_digits v.toNat c (by rw [h]; exact List.mem_cons_self _ _)
      rw [List.dropWhile_cons_of_neg]
      simp only [decide_eq_true_eq]
      intro heq
      subst heq
      exact absurd hcd (by decide)

theorem parsePiece_intToChars (v : Int) : parsePiece (intToChars v) = some v := by
  unfold parsePiece
  rw [intToChars_head_not_space, parseInt_intToChars]

/-! ### The Google Sheets service (get_spreadsheet_for_year, get_or_create_worksheet) -/

/-- One tab of a workbook: its title and the rows it holds (each row a list of
text cells). -/
structure Worksheet where
  wtitle : List Char
  rowsData : List (List (List Char))
deriving DecidableEq, Repr

/-- One workbook: its name, its tabs, and the principals it was shared with. -/
structure Spreadsheet where
  sname : List Char
  tabs : List Worksheet
  sharedWith : List (List Char)
deriving DecidableEq, Repr

/-- The drive visible to the authenticated client: the list of workbooks, in
creation order. -/
abbrev GClient := List Spreadsheet

/-- `f"Disney Archive - {year}"` (line 41). -/
def sheetTitleForYear (y : YearRepr) : List Char :=
  ("Disney Archive - ".toList) ++ yearReprChars y

/-- `get_spreadsheet_for_year` (lines 36-59): open the workbook by name; on
not-found, create it and share it with the configured email. -/
def get_spreadsheet_for_year (email : List Char) (gc : GClient) (y : YearRepr) :
    GClient × Spreadsheet :=
  let nm := sheetTitleForYear y
  match gc.find? (fun sh => sh.sname == nm) with
  | some sh => (gc, sh)
  | none =>
      let sh : Spreadsheet := ⟨nm, [], [email]⟩
      (gc ++ [sh], sh)

/-- `get_or_create_worksheet` (lines 61-69): look the tab up by title; on
not-found, add it and append the header row once. -/
def get_or_create_worksheet (sh : Spreadsheet) (title : List Char)
    (headers : List (List Char)) : Spreadsheet × Worksheet :=
  match sh.tabs.find? (fun ws => ws.wtitle == title) with
  | some ws => (sh, ws)
  | none =>
      let ws : Worksheet := ⟨title, [headers]⟩
      ({ sh with tabs := sh.tabs ++ [ws] }, ws)

/-! ### The archive driver loop (archive_table, lines 91-167) and main -/

inductive JobStatus where
  | done
  | aborted
  | fuelOut
  | notRun
deriving DecidableEq, Repr

/-- Result of one job's while-loop: the final source table, the slices whose
append returned unambiguous success (in order), and how the loop ended. -/
structure LoopResult where
  source : List Row
  writes : List (List Row)
  status : JobStatus
deriving DecidableEq, Repr

/-- `DELETE FROM t WHERE pk IN ids` followed by commit: removes every row whose
primary-key cell is one of the listed identifiers. -/
def deleteByIds (cfg : JobConfig) (src : List Row) (ids : List Cell) : List Row :=
  src.filter (fun r => !(decide (pkCell cfg r ∈ ids)))

/-- The while-loop of `archive_table`.  `sheetOk k` tells whether resolving the
workbook/worksheet succeeds at iteration `k` (lines 121-126: on failure the
exception is caught and the loop breaks); `appendOk k` tells whether
`worksheet.append_rows` succeeds (lines 149-153: on failure the function
returns, issuing no delete).  On append success exactly the slice's primary
keys are deleted and committed (lines 155-162), and the loop continues. -/
def archiveLoop (cfg : JobConfig) (sheetOk appendOk : Nat → Bool) :
    Nat → List Row → Nat → LoopResult
  | 0, src, _ => ⟨src, [], .fuelOut⟩
  | fuel + 1, src, k =>
    let rows := fetchBatch cfg src
    if rows.isEmpty then ⟨src, [], .done⟩
    else if sheetOk k = false then ⟨src, [], .aborted⟩
    else
      let slice := (splitLeadingPartition cfg rows).1
      if slice.isEmpty then archiveLoop cfg sheetOk appendOk fuel src (k + 1)
      else if appendOk k = false then ⟨src, [], .aborted⟩
      else
        let ids := slice.map (pkCell cfg)
        let src2 := deleteByIds cfg src ids
        let r := archiveLoop cfg sheetOk appendOk fuel src2 (k + 1)
        ⟨r.source, slice :: r.writes, r.status⟩

/-- Result of one whole run of `main` (lines 169-187). -/
structure ArchiveRunResult where
  job1 : LoopResult
  job2 : LoopResult
  exitCode : Nat
deriving DecidableEq, Repr

/-- `main`: authenticate, connect, then archive `wait_times` followed by
`park_operating_data`; auth or connection failure exits 1 before any job. -/
def mainArchive (authOk connectOk : Bool) (cfg1 cfg2 : JobConfig)
    (sheetOk1 appendOk1 sheetOk2 appendOk2 : Nat → Bool)
    (fuel : Nat) (src1 src2 : List Row) : ArchiveRunResult :=
  if authOk = false then ⟨⟨src1, [], .notRun⟩, ⟨src2, [], .notRun⟩, 1⟩
  else if connectOk = false then ⟨⟨src1, [], .notRun⟩, ⟨src2, [], .notRun⟩, 1⟩
  else
    ⟨archiveLoop cfg1 sheetOk1 appendOk1 fuel src1 0,
     archiveLoop cfg2 sheetOk2 appendOk2 fuel src2 0, 0⟩

/-- The primary-key column of a list of rows. -/
def pkList (cfg : JobConfig) (rows : List Row) : List Cell := rows.map (pkCell cfg)

theorem mem_pkList_deleteByIds (cfg : JobConfig) (src : List Row) (ids : List Cell)
    (c : Cell) : c ∈ pkList cfg (deleteByIds cfg src ids) ↔ c ∈ pkList cfg src ∧ c ∉ ids := by
  unfold pkList deleteByIds
  constructor
  · intro h
    obtain ⟨r, hr, rfl⟩ := List.mem_map.mp h
    have hmem := List.mem_filter.mp hr
    refine ⟨List.mem_map.mpr ⟨r, hmem.1, rfl⟩, ?_⟩
    have := hmem.2
    simp only [Bool.not_eq_true', decide_eq_false_iff_not] at this
    exact this
  · rintro ⟨h1, h2⟩
    obtain ⟨r, hr, rfl⟩ := List.mem_map.mp h1
    refine List.mem_map.mpr ⟨r, List.mem_filter.mpr ⟨hr, ?_⟩, rfl⟩
    simp only [Bool.not_eq_true', decide_eq_false_iff_not]
    exact h2

theorem splitLeadingPartition_fst_ne_nil (cfg : JobConfig) {rows : List Row}
    (h : rows ≠ []) : (splitLeadingPartition cfg rows).1 ≠ [] := by
  cases rows with
  | nil => exact absurd rfl h
  | cons r rest =>
    simp only [splitLeadingPartition]
    rw [List.takeWhile_cons_of_pos (sliceCond_self cfg r)]
    simp

/-- The no-loss invariant, by induction on the loop: a key remains in the source
exactly when it was there initially and does not belong to a successfully
appended slice. -/
theorem archiveLoop_pk_inv (cfg : JobConfig) (sheetOk appendOk : Nat → Bool) :
    ∀ (fuel : Nat) (src : List Row) (k : Nat) (c : Cell),
      c ∈ pkList cfg (archiveLoop cfg sheetOk appendOk fuel src k).source ↔
        (c ∈ pkList cfg src ∧
          c ∉ pkList cfg (archiveLoop cfg sheetOk appendOk fuel src k).writes.flatten) := by
  intro fuel
  induction fuel with
  | zero => intro src k c; simp [archiveLoop, pkList]
  | succ fuel ih =>
    intro src k c
    simp only [archiveLoop]
    by_cases h1 : (fetchBatch cfg src).isEmpty = true
    · rw [if_pos h1]
      simp [pkList]
    · rw [if_neg h1]
      by_cases h2 : sheetOk k = false
      · rw [if_pos h2]
        simp [pkList]
      · rw [if_neg h2]
        have hne : fetchBatch cfg src ≠ [] := by
          intro h; exact h1 (by rw [h]; rfl)
        have hslice := splitLeadingPartition_fst_ne_nil cfg hne
        have h3 : ¬ (splitLeadingPartition cfg (fetchBatch cfg src)).1.isEmpty = true := by
          cases hx : (splitLeadingPartition cfg (fetchBatch cfg src)).1 with
          | nil => exact absurd hx hslice
          | cons a l => simp
        rw [if_neg h3]
        by_cases h4 : appendOk k = false
        · rw [if_pos h4]
          simp [pkList]
        · rw [if_neg h4]
          have hrec := ih (deleteByIds cfg src
            ((splitLeadingPartition cfg (fetchBatch cfg src)).1.map (pkCell cfg))) (k + 1) c
          have hdel := mem_pkList_deleteByIds cfg src
            ((splitLeadingPartition cfg (fetchBatch cfg src)).1.map (pkCell cfg)) c
          simp only [List.flatten_cons, pkList, List.map_append, List.mem_append]
            at hrec hdel ⊢
          tauto

theorem archiveLoop_append_fail (cfg : JobConfig) (sheetOk appendOk : Nat → Bool)
    (fuel : Nat) (src : List Row) (k : Nat)
    (hsheet : sheetOk k = true) (happ : appendOk k = false)
    (hne : fetchBatch cfg src ≠ []) :
    archiveLoop cfg sheetOk appendOk (fuel + 1) src k = ⟨src, [], JobStatus.aborted⟩ := by
  simp only [archiveLoop]
  have h1 : ¬ (fetchBatch cfg src).isEmpty = true := by
    intro h
    exact hne (List.isEmpty_iff.mp h)
  rw [if_neg h1]
  rw [if_neg (by rw [hsheet]; simp)]
  have h3 : ¬ (splitLeadingPartition cfg (fetchBatch cfg src)).1.isEmpty = true := by
    intro h
    exact splitLeadingPartition_fst_ne_nil cfg hne (List.isEmpty_iff.mp h)
  rw [if_neg h3, if_pos happ]

/-- One run of `archive_table` for one job: the loop started on the current
source table. -/
def archive_table (cfg : JobConfig) (sheetOk appendOk : Nat → Bool)
    (fuel : Nat) (src : List Row) : LoopResult :=
  archiveLoop cfg sheetOk appendOk fuel src 0

/-- C1: No-loss invariant of the archive loop.  (i) After any run, a primary key
remains in the source exactly when it was there initially and is not the key of
a row in a successfully appended slice, i.e. the remaining key set is the
original set minus exactly the keys of confirmed writes.  (ii) If the append of
the current iteration fails, the loop stops with no delete issued: the source is
returned unchanged and the job ends aborted. -/
theorem C1_no_loss_invariant :
    (∀ (cfg : JobConfig) (sheetOk appendOk : Nat → Bool) (fuel : Nat) (src : List Row)
      (c : Cell),
      c ∈ pkList cfg (archive_table cfg sheetOk appendOk fuel src).source ↔
        (c ∈ pkList cfg src ∧
          c ∉ pkList cfg (archive_table cfg sheetOk appendOk fuel src).writes.flatten)) ∧
    (∀ (cfg : JobConfig) (sheetOk appendOk : Nat → Bool) (fuel : Nat) (src : List Row)
      (k : Nat), sheetOk k = true → appendOk k = false → fetchBatch cfg src ≠ [] →
      archiveLoop cfg sheetOk appendOk (fuel + 1) src k = ⟨src, [], JobStatus.aborted⟩) :=
  ⟨fun cfg sheetOk appendOk fuel src c =>
      archiveLoop_pk_inv cfg sheetOk appendOk fuel src 0 c,
   fun cfg sheetOk appendOk fuel src k h1 h2 h3 =>
      archiveLoop_append_fail cfg sheetOk appendOk fuel src k h1 h2 h3⟩

/-- Concrete job configuration used by witnesses: page size 5000, date column at
position 0, primary key at position 1, cutoff in 2026. -/
def cfgW : JobConfig := ⟨5000, 0, 1, TsValue.structured ⟨2026, 0⟩⟩

/-- A concrete expired row (year 2024, primary key 7). -/
def rowW : Row := [Cell.timeCell (TsValue.structured ⟨2024, 5⟩), Cell.intCell 7]

theorem C1_no_loss_invariant_witness :
    archiveLoop cfgW (fun _ => true) (fun _ => false) 1 [rowW] 0 =
      ⟨[rowW], [], JobStatus.aborted⟩ :=
  C1_no_loss_invariant.2 cfgW (fun _ => true) (fun _ => false) 0 [rowW] 0 rfl rfl
    (by decide)

theorem head_of_dropWhile_false {α : Type} {p : α → Bool} {l : List α} {a : α} {t : List α}
    (h : l.dropWhile p = a :: t) : p a = false := by
  have w : l.dropWhile p ≠ [] := by rw [h]; simp
  have hd := List.head_dropWhile_not p l w
  have hhead : (l.dropWhile p).head w = a := by
    simp only [h, List.head_cons]
  rwa [hhead] at hd

theorem mem_takeWhile_year (cfg : JobConfig) {rows : List Row} {r0 r : Row}
    (h : r ∈ rows.takeWhile (sliceCond cfg (dataYearOf (rowTs cfg r0)))) :
    tsYear (rowTs cfg r) = tsYear (rowTs cfg r0) := by
  have := List.mem_takeWhile_imp h
  simp only [sliceCond, yearReprToInt_dataYearOf, beq_iff_eq] at this
  exact this

theorem dropWhile_slice_length (cfg : JobConfig) (r : Row) (rest : List Row) :
    ((r :: rest).dropWhile (sliceCond cfg (dataYearOf (rowTs cfg r)))).length ≤
      rest.length := by
  rw [List.dropWhile_cons_of_pos (sliceCond_self cfg r)]
  exact List.Sublist.length_le (List.dropWhile_sublist _)

theorem partitionSlices_flatten_aux (cfg : JobConfig) :
    ∀ (n : Nat) (rows : List Row), rows.length ≤ n →
      (partitionSlices cfg rows).flatten = rows := by
  intro n
  induction n with
  | zero =>
    intro rows hlen
    have : rows = [] := List.length_eq_zero.mp (Nat.le_zero.mp hlen)
    subst this
    simp [partitionSlices]
  | succ n ih =>
    intro rows hlen
    cases rows with
    | nil => simp [partitionSlices]
    | cons r rest =>
      simp only [partitionSlices, List.flatten_cons]
      rw [ih _ (le_trans (dropWhile_slice_length cfg r rest)
        (Nat.le_of_succ_le_succ hlen))]
      exact List.takeWhile_append_dropWhile _ _

theorem partitionSlices_flatten (cfg : JobConfig) (rows : List Row) :
    (partitionSlices cfg rows).flatten = rows :=
  partitionSlices_flatten_aux cfg rows.length rows le_rfl

theorem partitionSlices_uniform_aux (cfg : JobConfig) :
    ∀ (n : Nat) (rows : List Row), rows.length ≤ n →
      ∀ s ∈ partitionSlices cfg rows, s ≠ [] ∧
        ∃ y, ∀ r ∈ s, tsYear (rowTs cfg r) = y := by
  intro n
  induction n with
  | zero =>
    intro rows hlen
    have : rows = [] := List.length_eq_zero.mp (Nat.le_zero.mp hlen)
    subst this
    intro s hs
    exact absurd hs (by simp [partitionSlices])
  | succ n ih =>
    intro rows hlen
    cases rows with
    | nil => intro s hs; exact absurd hs (by simp [partitionSlices])
    | cons r rest =>
      intro s hs
      simp only [partitionSlices, List.mem_cons] at hs
      rcases hs with hs | hs
      · subst hs
        constructor
        · rw [List.takeWhile_cons_of_pos (sliceCond_self cfg r)]
          simp
        · exact ⟨tsYear (rowTs cfg r), fun x hx => mem_takeWhile_year cfg hx⟩
      · exact ih _ (le_trans (dropWhile_slice_length cfg r rest)
          (Nat.le_of_succ_le_succ hlen)) s hs

/-- C2: Batch splitting correctness.  For a batch sorted ascending by the
timestamp column: the leading slice is non-empty, slice and remainder
concatenate back to the batch (so the slice is a contiguous prefix and no row
is misrouted or duplicated), every slice row has the year of the first row, the
remainder begins with a row of a different year when non-empty, and repeated
extraction reconstructs the batch exactly with every emitted slice uniform in
partition identifier. -/
theorem C2_batch_splitting (cfg : JobConfig) (rows : List Row)
    (hsorted : List.Sorted (rowLE cfg) rows) (hne : rows ≠ []) :
    (splitLeadingPartition cfg rows).1 ≠ [] ∧
    (splitLeadingPartition cfg rows).1 ++ (splitLeadingPartition cfg rows).2 = rows ∧
    (∀ r ∈ (splitLeadingPartition cfg rows).1,
      tsYear (rowTs cfg r) = tsYear (rowTs cfg rows.headI)) ∧
    ((splitLeadingPartition cfg rows).2 ≠ [] →
      tsYear (rowTs cfg (splitLeadingPartition cfg rows).2.headI) ≠
        tsYear (rowTs cfg rows.headI)) ∧
    (partitionSlices cfg rows).flatten = rows ∧
    (∀ s ∈ partitionSlices cfg rows, s ≠ [] ∧
      ∃ y, ∀ r ∈ s, tsYear (rowTs cfg r) = y) := by
  refine ⟨splitLeadingPartition_fst_ne_nil cfg hne, ?_, ?_, ?_,
    partitionSlices_flatten cfg rows,
    partitionSlices_uniform_aux cfg rows.length rows le_rfl⟩
  · cases rows with
    | nil => exact absurd rfl hne
    | cons r rest =>
      simp only [splitLeadingPartition]
      exact List.takeWhile_append_dropWhile _ _
  · cases rows with
    | nil => exact absurd rfl hne
    | cons r rest =>
      intro x hx
      simp only [splitLeadingPartition] at hx
      simp only [List.headI_cons]
      exact mem_takeWhile_year cfg hx
  · cases rows with
    | nil => exact absurd rfl hne
    | cons r rest =>
      intro hne2
      simp only [splitLeadingPartition] at hne2 ⊢
      cases hx : (r :: rest).dropWhile (sliceCond cfg (dataYearOf (rowTs cfg r))) with
      | nil => rw [hx] at hne2; exact absurd rfl hne2
      | cons r1 t =>
        have hfalse := head_of_dropWhile_false hx
        simp only [hx, List.headI_cons, List.headI_cons]
        simp only [sliceCond, yearReprToInt_dataYearOf, beq_eq_false_iff_ne, ne_eq] at hfalse
        exact hfalse

/-- A second concrete row: year 2025, primary key 8. -/
def rowW2 : Row := [Cell.timeCell (TsValue.structured ⟨2025, 1⟩), Cell.intCell 8]

/-- A concrete sorted batch crossing the 2024/2025 year boundary. -/
def rowsW : List Row := [rowW, rowW2]

theorem C2_batch_splitting_witness :
    (splitLeadingPartition cfgW rowsW).1 ≠ [] ∧
    (splitLeadingPartition cfgW rowsW).1 ++ (splitLeadingPartition cfgW rowsW).2 = rowsW ∧
    (∀ r ∈ (splitLeadingPartition cfgW rowsW).1,
      tsYear (rowTs cfgW r) = tsYear (rowTs cfgW rowsW.headI)) ∧
    ((splitLeadingPartition cfgW rowsW).2 ≠ [] →
      tsYear (rowTs cfgW (splitLeadingPartition cfgW rowsW).2.headI) ≠
        tsYear (rowTs cfgW rowsW.headI)) ∧
    (partitionSlices cfgW rowsW).flatten = rowsW ∧
    (∀ s ∈ partitionSlices cfgW rowsW, s ≠ [] ∧
      ∃ y, ∀ r ∈ s, tsYear (rowTs cfgW r) = y) :=
  C2_batch_splitting cfgW rowsW (by decide) (by decide)

theorem parsePiece_nil : parsePiece [] = none := by decide

theorem wellFormed_single (v : Int) :
    wellFormedInList (Char.ofNat 40 :: (intToChars v ++ [Char.ofNat 41])) = some [v] := by
  simp only [wellFormedInList, List.getLast?_concat, List.dropLast_concat, if_pos rfl]
  rw [splitComma_no_comma (intToChars_no_comma v)]
  simp [parseAllPieces, parsePiece_intToChars v]

theorem wellFormed_pyTuple_single (v : Int) :
    wellFormedInList (pyTupleRepr [v]) = none := by
  have hshape : pyTupleRepr [v] =
      Char.ofNat 40 :: ((intToChars v ++ [Char.ofNat 44]) ++ [Char.ofNat 41]) := by
    simp [pyTupleRepr]
  rw [hshape]
  simp only [wellFormedInList, List.getLast?_concat, List.dropLast_concat, if_pos rfl]
  rw [show intToChars v ++ [Char.ofNat 44] = intToChars v ++ Char.ofNat 44 :: [] from rfl]
  rw [splitComma_append_comma (intToChars_no_comma v)]
  simp [splitComma, parseAllPieces, parsePiece_intToChars v, parsePiece_nil]

/-- C3: Single-element delete.  When exactly one row was confirmed written, the
interpolated IN-clause is a well-formed one-element set denoting exactly that
key, for every integer key value (while the plain tuple repr, with its trailing
comma, would be malformed), and deleting by that one-element list removes from
the source exactly the rows whose primary-key cell equals that value. -/
theorem C3_single_element_delete (v : Int) (cfg : JobConfig) (src : List Row) :
    wellFormedInList (renderInClause [v]) = some [v] ∧
    wellFormedInList (pyTupleRepr [v]) = none ∧
    deleteByIds cfg src [Cell.intCell v] =
      src.filter (fun r => !(pkCell cfg r == Cell.intCell v)) := by
  refine ⟨?_, wellFormed_pyTuple_single v, ?_⟩
  · have : renderInClause [v] = Char.ofNat 40 :: (intToChars v ++ [Char.ofNat 41]) := by
      simp [renderInClause]
    rw [this]
    exact wellFormed_single v
  · apply List.filter_congr
    intro r hr
    by_cases h : pkCell cfg r = Cell.intCell v <;> simp [h]

/-- C8: Idempotent destination resolution.  Resolving the workbook for a year a
second time leaves the drive unchanged (no duplicate workbook); when the
workbook is already present no creation happens at all; resolving a worksheet a
second time leaves the workbook unchanged (no duplicate tab); and a tab created
on not-found holds exactly the header row, written once at creation. -/
theorem C8_idempotent_resolution (email : List Char) (gc : GClient) (y : YearRepr)
    (sh : Spreadsheet) (title : List Char) (headers : List (List Char)) :
    (get_spreadsheet_for_year email (get_spreadsheet_for_year email gc y).1 y).1 =
      (get_spreadsheet_for_year email gc y).1 ∧
    (gc.find? (fun s => s.sname == sheetTitleForYear y) ≠ none →
      (get_spreadsheet_for_year email gc y).1 = gc) ∧
    (get_or_create_worksheet (get_or_create_worksheet sh title headers).1 title headers).1 =
      (get_or_create_worksheet sh title headers).1 ∧
    (sh.tabs.find? (fun ws => ws.wtitle == title) = none →
      ((get_or_create_worksheet sh title headers).2).rowsData = [headers]) := by
  refine ⟨?_, ?_, ?_, ?_⟩
  · cases hfind : gc.find? (fun s => s.sname == sheetTitleForYear y) with
    | some sh0 =>
      simp only [get_spreadsheet_for_year, hfind]
    | none =>
      simp only [get_spreadsheet_for_year, hfind]
      rw [List.find?_append, hfind]
      simp [get_spreadsheet_for_year]
  · intro hne
    cases hfind : gc.find? (fun s => s.sname == sheetTitleForYear y) with
    | some sh0 => simp only [get_spreadsheet_for_year, hfind]
    | none => exact absurd hfind hne
  · cases hfind : sh.tabs.find? (fun ws => ws.wtitle == title) with
    | some ws0 =>
      simp only [get_or_create_worksheet, hfind]
    | none =>
      simp only [get_or_create_worksheet, hfind]
      rw [List.find?_append, hfind]
      simp [get_or_create_worksheet]
  · intro hnone
    simp only [get_or_create_worksheet, hnone]

/-- Concrete inputs for the resolution witness. -/
def emailW : List Char := "me@example.com".toList

def yearW : YearRepr := YearRepr.ofYear 2024

/-- A drive already holding the 2024 archive workbook. -/
def gcW : GClient := [⟨sheetTitleForYear yearW, [], []⟩]

def shW : Spreadsheet := ⟨sheetTitleForYear yearW, [], []⟩

def titleW : List Char := "wait_times".toList

def headersW : List (List Char) := ["id".toList, "timestamp".toList]

theorem C8_idempotent_resolution_witness :
    ((get_spreadsheet_for_year emailW (get_spreadsheet_for_year emailW [] yearW).1 yearW).1 =
      (get_spreadsheet_for_year emailW [] yearW).1) ∧
    ((get_spreadsheet_for_year emailW gcW yearW).1 = gcW) ∧
    ((get_or_create_worksheet (get_or_create_worksheet shW titleW headersW).1 titleW headersW).1 =
      (get_or_create_worksheet shW titleW headersW).1) ∧
    (((get_or_create_worksheet shW titleW headersW).2).rowsData = [headersW]) :=
  ⟨(C8_idempotent_resolution emailW [] yearW shW titleW headersW).1,
   (C8_idempotent_resolution emailW gcW yearW shW titleW headersW).2.1 (by decide),
   (C8_idempotent_resolution emailW [] yearW shW titleW headersW).2.2.1,
   (C8_idempotent_resolution emailW [] yearW shW titleW headersW).2.2.2 (by decide)⟩

/-- C6: Partition Namer representation-independence.  For a timestamp that can
arrive either as a structured value or as a string whose first four characters
are (the rendering of) its year, the sheet name chosen from `data_year` and the
integer used in the year-boundary comparison are identical in effect for the
two representations. -/
theorem C6_partition_namer_representation (t : StructTime) (s : List Char)
    (h : s.take 4 = intToChars t.year) :
    sheetTitleForYear (dataYearOf (TsValue.structured t)) =
      sheetTitleForYear (dataYearOf (TsValue.strval s)) ∧
    tsYear (TsValue.structured t) = tsYear (TsValue.strval s) ∧
    yearReprToInt (dataYearOf (TsValue.structured t)) =
      yearReprToInt (dataYearOf (TsValue.strval s)) := by
  have hyear : pyInt (s.take 4) = t.year := by
    rw [h]
    unfold pyInt
    rw [parseInt_intToChars]
    rfl
  refine ⟨?_, ?_, ?_⟩
  · simp only [sheetTitleForYear, dataYearOf, yearReprChars, h]
  · simp only [tsYear, hyear]
  · simp only [dataYearOf, yearReprToInt, hyear]

/-- A string timestamp whose first four characters render the year 2024. -/
def tsStrW : List Char := "2024-03-01 10:00:00".toList

theorem C6_partition_namer_representation_witness :
    sheetTitleForYear (dataYearOf (TsValue.structured ⟨2024, 5⟩)) =
      sheetTitleForYear (dataYearOf (TsValue.strval tsStrW)) ∧
    tsYear (TsValue.structured ⟨2024, 5⟩) = tsYear (TsValue.strval tsStrW) ∧
    yearReprToInt (dataYearOf (TsValue.structured ⟨2024, 5⟩)) =
      yearReprToInt (dataYearOf (TsValue.strval tsStrW)) :=
  C6_partition_namer_representation ⟨2024, 5⟩ tsStrW (by decide)

theorem fetchBatch_eq_nil_iff (cfg : JobConfig) (src : List Row)
    (hbs : 0 < cfg.batchSize) :
    fetchBatch cfg src = [] ↔ ∀ r ∈ src, tsLTb (rowTs cfg r) cfg.cutoff = false := by
  unfold fetchBatch
  rw [List.take_eq_nil_iff]
  constructor
  · intro h
    rcases h with h | h
    · omega
    · have hperm := List.perm_insertionSort (rowLE cfg)
        (src.filter (fun r => tsLTb (rowTs cfg r) cfg.cutoff))
      rw [h] at hperm
      have := hperm.nil_eq.symm
      intro r hr
      have hnot := List.filter_eq_nil_iff.mp this r hr
      simpa using hnot
  · intro h
    right
    have : src.filter (fun r => tsLTb (rowTs cfg r) cfg.cutoff) = [] := by
      rw [List.filter_eq_nil_iff]
      intro r hr
      simp [h r hr]
    rw [this]
    rfl

theorem archiveLoop_empty_done (cfg : JobConfig) (sheetOk appendOk : Nat → Bool)
    (fuel : Nat) (src : List Row) (k : Nat) (h : fetchBatch cfg src = []) :
    archiveLoop cfg sheetOk appendOk (fuel + 1) src k = ⟨src, [], JobStatus.done⟩ := by
  simp only [archiveLoop]
  rw [if_pos (by rw [h]; rfl)]

theorem archiveLoop_done_no_expired (cfg : JobConfig) (sheetOk appendOk : Nat → Bool)
    (hbs : 0 < cfg.batchSize) :
    ∀ (fuel : Nat) (src : List Row) (k : Nat),
      (archiveLoop cfg sheetOk appendOk fuel src k).status = JobStatus.done →
      ∀ r ∈ (archiveLoop cfg sheetOk appendOk fuel src k).source,
        tsLTb (rowTs cfg r) cfg.cutoff = false := by
  intro fuel
  induction fuel with
  | zero =>
    intro src k hstat
    exact absurd hstat (by simp [archiveLoop])
  | succ fuel ih =>
    intro src k hstat r hr
    simp only [archiveLoop] at hstat hr
    by_cases h1 : (fetchBatch cfg src).isEmpty = true
    · rw [if_pos h1] at hr
      exact (fetchBatch_eq_nil_iff cfg src hbs).mp (List.isEmpty_iff.mp h1) r hr
    · rw [if_neg h1] at hstat hr
      by_cases h2 : sheetOk k = false
      · rw [if_pos h2] at hstat
        exact absurd hstat (by simp)
      · rw [if_neg h2] at hstat hr
        by_cases h3 : (splitLeadingPartition cfg (fetchBatch cfg src)).1.isEmpty = true
        · rw [if_pos h3] at hstat hr
          exact ih src (k + 1) hstat r hr
        · rw [if_neg h3] at hstat hr
          by_cases h4 : appendOk k = false
          · rw [if_pos h4] at hstat
            exact absurd hstat (by simp)
          · rw [if_neg h4] at hstat hr
            exact ih _ (k + 1) hstat r hr

/-- C5: Source fetch contract.  Every fetched batch has at most `batchSize`
rows, contains only rows strictly below the cutoff `now - retention`, and is
sorted ascending by the timestamp column; the batch is empty exactly when no
source row is below the cutoff; an empty batch ends the loop in `DONE` with the
source unchanged; and a run that ends `DONE` leaves a source with no expired
rows (each fetch re-queries current state, so the deletes are what empty it). -/
theorem C5_source_fetch_contract (cfg : JobConfig) (src : List Row)
    (sheetOk appendOk : Nat → Bool) (fuel k : Nat) (hbs : 0 < cfg.batchSize) :
    (fetchBatch cfg src).length ≤ cfg.batchSize ∧
    (∀ r ∈ fetchBatch cfg src, tsLTb (rowTs cfg r) cfg.cutoff = true) ∧
    List.Sorted (rowLE cfg) (fetchBatch cfg src) ∧
    (fetchBatch cfg src = [] ↔ ∀ r ∈ src, tsLTb (rowTs cfg r) cfg.cutoff = false) ∧
    (fetchBatch cfg src = [] →
      archiveLoop cfg sheetOk appendOk (fuel + 1) src k = ⟨src, [], JobStatus.done⟩) ∧
    ((archiveLoop cfg sheetOk appendOk fuel src k).status = JobStatus.done →
      ∀ r ∈ (archiveLoop cfg sheetOk appendOk fuel src k).source,
        tsLTb (rowTs cfg r) cfg.cutoff = false) := by
  refine ⟨List.length_take_le _ _, ?_, ?_,
    fetchBatch_eq_nil_iff cfg src hbs,
    fun h => archiveLoop_empty_done cfg sheetOk appendOk fuel src k h,
    fun h => archiveLoop_done_no_expired cfg sheetOk appendOk hbs fuel src k h⟩
  · intro r hr
    have hmem : r ∈ List.insertionSort (rowLE cfg)
        (src.filter (fun x => tsLTb (rowTs cfg x) cfg.cutoff)) :=
      List.take_subset _ _ hr
    have hfil : r ∈ src.filter (fun x => tsLTb (rowTs cfg x) cfg.cutoff) :=
      (List.mem_insertionSort (rowLE cfg)).mp hmem
    exact (List.mem_filter.mp hfil).2
  · haveI : IsTotal Row (rowLE cfg) := ⟨fun a b => by
      have := tsLEb_total (rowTs cfg a) (rowTs cfg b)
      rcases Bool.or_eq_true_iff.mp this with h | h
      · exact Or.inl h
      · exact Or.inr h⟩
    haveI : IsTrans Row (rowLE cfg) := ⟨fun a b c hab hbc =>
      tsLEb_trans (rowTs cfg a) (rowTs cfg b) (rowTs cfg c) hab hbc⟩
    exact (List.sorted_insertionSort (rowLE cfg) _).sublist (List.take_sublist _ _)

/-- A concrete fresh row (year 2027, after the witness cutoff). -/
def rowFreshW : Row := [Cell.timeCell (TsValue.structured ⟨2027, 0⟩), Cell.intCell 9]

theorem C5_source_fetch_contract_witness :
    (fetchBatch cfgW [rowFreshW]).length ≤ cfgW.batchSize ∧
    (∀ r ∈ fetchBatch cfgW [rowFreshW], tsLTb (rowTs cfgW r) cfgW.cutoff = true) ∧
    List.Sorted (rowLE cfgW) (fetchBatch cfgW [rowFreshW]) ∧
    (fetchBatch cfgW [rowFreshW] = [] ↔
      ∀ r ∈ [rowFreshW], tsLTb (rowTs cfgW r) cfgW.cutoff = false) ∧
    (fetchBatch cfgW [rowFreshW] = [] →
      archiveLoop cfgW (fun _ => true) (fun _ => true) (1 + 1) [rowFreshW] 0 =
        ⟨[rowFreshW], [], JobStatus.done⟩) ∧
    ((archiveLoop cfgW (fun _ => true) (fun _ => true) 1 [rowFreshW] 0).status =
        JobStatus.done →
      ∀ r ∈ (archiveLoop cfgW (fun _ => true) (fun _ => true) 1 [rowFreshW] 0).source,
        tsLTb (rowTs cfgW r) cfgW.cutoff = false) :=
  C5_source_fetch_contract cfgW [rowFreshW] (fun _ => true) (fun _ => true) 1 0 (by decide)

theorem archiveLoop_resolve_fail (cfg : JobConfig) (sheetOk appendOk : Nat → Bool)
    (fuel : Nat) (src : List Row) (k : Nat)
    (hfail : sheetOk k = false) (hne : fetchBatch cfg src ≠ []) :
    archiveLoop cfg sheetOk appendOk (fuel + 1) src k = ⟨src, [], JobStatus.aborted⟩ := by
  simp only [archiveLoop]
  rw [if_neg (fun h => hne (List.isEmpty_iff.mp h)), if_pos hfail]

/-- Oracle that always succeeds. -/
def okW : Nat → Bool := fun _ => true

/-- Oracle that always fails. -/
def failW : Nat → Bool := fun _ => false

/-- C4 counterexample: a run in which creating/opening the destination workbook
fails (the resolve oracle is always false) while one expired row is present.
`archive_table` catches the exception and breaks (line 126), `main` continues,
and the process exits 0 — not the non-zero exit the claim requires.  The first
job is aborted with its source untouched, and the second job still completes. -/
theorem C4_counterexample :
    (mainArchive true true cfgW cfgW failW okW okW okW 2 [rowW] []).exitCode = 0 ∧
    (mainArchive true true cfgW cfgW failW okW okW okW 2 [rowW] []).job1 =
      ⟨[rowW], [], JobStatus.aborted⟩ ∧
    (mainArchive true true cfgW cfgW failW okW okW okW 2 [rowW] []).job2.status =
      JobStatus.done := by
  refine ⟨rfl, ?_, rfl⟩
  decide

/-- C4 (amended): if creating or opening the destination workbook fails, the
error is caught inside `archive_table`: the job stops (aborted) before any
write or delete, so the slice's rows remain untouched in the source; the run
then continues with the second job, whose loop runs in full, and the process
exits 0. -/
theorem C4_resolve_failure_aborts_job_only (cfg cfg2 : JobConfig)
    (sheetOk appendOk sheetOk2 appendOk2 : Nat → Bool) (fuel k : Nat)
    (src src2 : List Row)
    (hfail : sheetOk k = false) (hne : fetchBatch cfg src ≠ []) :
    archiveLoop cfg sheetOk appendOk (fuel + 1) src k = ⟨src, [], JobStatus.aborted⟩ ∧
    (mainArchive true true cfg cfg2 sheetOk appendOk sheetOk2 appendOk2 (fuel + 1) src
        src2).job2 = archive_table cfg2 sheetOk2 appendOk2 (fuel + 1) src2 ∧
    (mainArchive true true cfg cfg2 sheetOk appendOk sheetOk2 appendOk2 (fuel + 1) src
        src2).exitCode = 0 :=
  ⟨archiveLoop_resolve_fail cfg sheetOk appendOk fuel src k hfail hne,
   by simp [mainArchive, archive_table],
   by simp [mainArchive]⟩

theorem C4_resolve_failure_aborts_job_only_witness :
    archiveLoop cfgW failW okW 2 [rowW] 0 = ⟨[rowW], [], JobStatus.aborted⟩ ∧
    (mainArchive true true cfgW cfgW failW okW okW okW 2 [rowW] []).job2 =
      archive_table cfgW okW okW 2 [] ∧
    (mainArchive true true cfgW cfgW failW okW okW okW 2 [rowW] []).exitCode = 0 :=
  C4_resolve_failure_aborts_job_only cfgW cfgW failW okW okW okW 1 0 [rowW] [] rfl
    (by decide)

/-- C7: Job independence.  Whenever the first job's run ends aborted (for any
oracle behaviour, covering both resolve and write failures), `main` still
invokes the second job, whose result is exactly the full run of its own loop on
its own source, and the process exits 0: `ABORTED` is terminal only for the job
in which it occurred. -/
theorem C7_job_independence (cfg1 cfg2 : JobConfig) (s1 a1 s2 a2 : Nat → Bool)
    (fuel : Nat) (src1 src2 : List Row)
    (hab : (archive_table cfg1 s1 a1 fuel src1).status = JobStatus.aborted) :
    (mainArchive true true cfg1 cfg2 s1 a1 s2 a2 fuel src1 src2).job1.status =
      JobStatus.aborted ∧
    (mainArchive true true cfg1 cfg2 s1 a1 s2 a2 fuel src1 src2).job2 =
      archive_table cfg2 s2 a2 fuel src2 ∧
    (mainArchive true true cfg1 cfg2 s1 a1 s2 a2 fuel src1 src2).exitCode = 0 := by
  refine ⟨?_, by simp [mainArchive, archive_table], by simp [mainArchive]⟩
  simpa [mainArchive, archive_table] using hab

theorem C7_job_independence_witness :
    (mainArchive true true cfgW cfgW okW failW okW okW 2 [rowW] [rowW2]).job1.status =
      JobStatus.aborted ∧
    (mainArchive true true cfgW cfgW okW failW okW okW 2 [rowW] [rowW2]).job2 =
      archive_table cfgW okW okW 2 [rowW2] ∧
    (mainArchive true true cfgW cfgW okW failW okW okW 2 [rowW] [rowW2]).exitCode = 0 :=
  C7_job_independence cfgW cfgW okW failW okW okW 2 [rowW] [rowW2] (by decide)

/-! ### collect.py: live entities, the all-closed check, and the two savers -/

/-- One entry of an `operatingHours` list. -/
structure OpHour where
  otype : Option (List Char)
  startTime : Option (List Char)
  endTime : Option (List Char)
deriving DecidableEq, Repr

/-- One entity of the live/schedule API responses, holding the fields
`collect.py` reads.  `standbyWait` is `some w` when `queue.STANDBY` is present,
with `w` the (possibly missing) `waitTime`. -/
structure Entity where
  eid : List Char
  entityType : Option (List Char)
  ename : Option (List Char)
  estatus : Option (List Char)
  parkId : Option (List Char)
  eventTypeTag : Option (List Char)
  standbyWait : Option (Option Int)
  operatingHours : List OpHour
  crowdLevel : Option (List Char)
deriving DecidableEq, Repr

def apos : Char := Char.ofNat 39

/-- The four main park names (lines 107-112). -/
def mainParkNames : List (List Char) :=
  ["Magic Kingdom Park".toList,
   "Epcot".toList,
   "Disney".toList ++ [apos] ++ "s Hollywood Studios".toList,
   "Disney".toList ++ [apos] ++ "s Animal Kingdom Theme Park".toList]

def parkEntityTypes : List (List Char) := ["THEME_PARK".toList, "PARK".toList]

def closedStr : List Char := "CLOSED".toList

/-- Python dict assignment `m[k] = v`: overwrite in place, else append. -/
def dictInsert (m : List (List Char × List Char)) (k v : List Char) :
    List (List Char × List Char) :=
  if m.any (fun p => p.1 == k) then m.map (fun p => if p.1 == k then (k, v) else p)
  else m ++ [(k, v)]

/-- Is the optional value a member of the list (Python `x in l`, with `None`
never a member)? -/
def optInList (o : Option (List Char)) (l : List (List Char)) : Bool :=
  match o with
  | some x => decide (x ∈ l)
  | none => false

/-- The effective `get_main_park_data` (lines 102-128, the second definition,
which shadows the first): the dict from main-park name to current status. -/
def get_main_park_data (live : Option (List Entity)) : List (List Char × List Char) :=
  match live with
  | none => []
  | some entities =>
      entities.foldl (fun acc e =>
        if optInList e.entityType parkEntityTypes && optInList e.ename mainParkNames then
          dictInsert acc (e.ename.getD []) (e.estatus.getD ("Unknown".toList))
        else acc) []

/-- One saved `wait_times` observation (the collector's INSERT, lines 254-260). -/
structure WtRow where
  runTime : Int
  parkName : Option (List Char)
  rideName : List Char
  waitTime : Option Int
  wstatus : Option (List Char)
  attractionType : Option (List Char)
deriving DecidableEq, Repr

/-- One `park_operating_data` row (lines 178-193). -/
structure PodRow where
  dataDate : List Char
  parkName : List Char
  openTime : Option (List Char)
  closeTime : Option (List Char)
  forecastStatus : Option (List Char)
deriving DecidableEq, Repr

/-- The two tables the collector writes. -/
structure DbState where
  waitTimes : List WtRow
  parkOperatingData : List PodRow
deriving DecidableEq, Repr

/-- First `operatingHours` entry with `type == OPERATING` (lines 164-169). -/
def firstOperating (hs : List OpHour) : Option OpHour :=
  hs.find? (fun h => h.otype == some ("OPERATING".toList))

/-- The `park_operating_data` row built for one schedule entry: open/close from
the first OPERATING entry, `data_date` the date part of `open_time` when
present, today's date otherwise (lines 160-176). -/
def podRowOf (e : Entity) (nowDate : List Char) (n : List Char) : PodRow :=
  let op := firstOperating e.operatingHours
  let openT := match op with
    | some h => h.startTime
    | none => none
  let closeT := match op with
    | some h => h.endTime
    | none => none
  let dd := match openT with
    | some s => s.take 10
    | none => nowDate
  ⟨dd, n, openT, closeT, e.crowdLevel⟩

/-- Does the table already hold a row with this row's (park_name, data_date)? -/
def hasKey (r : PodRow) (tbl : List PodRow) : Bool :=
  tbl.any (fun x => x.parkName == r.parkName && x.dataDate == r.dataDate)

/-- `INSERT ... ON CONFLICT (park_name, data_date) DO NOTHING` (lines 178-193). -/
def insertPodOnConflict (tbl : List PodRow) (r : PodRow) : List PodRow :=
  if hasKey r tbl then tbl else tbl ++ [r]

/-- Processing of one schedule entry inside `save_daily_park_data`. -/
def dailyStep (nowDate : List Char) (t : List PodRow) (e : Entity) : List PodRow :=
  match e.ename with
  | some n =>
      if decide (n ∈ mainParkNames) then insertPodOnConflict t (podRowOf e nowDate n)
      else t
  | none => t

/-- `save_daily_park_data` (lines 130-204): nothing is written when the
response or its schedule key is missing; otherwise each main-park entry is
inserted with conflict-do-nothing, then committed. -/
def save_daily_park_data (sched : Option (Option (List Entity))) (nowDate : List Char)
    (tbl : List PodRow) : List PodRow :=
  match sched with
  | none => tbl
  | some none => tbl
  | some (some entries) => entries.foldl (dailyStep nowDate) tbl

/-- The id-to-name park map built from liveData (lines 218-221). -/
def parkMapOf (entities : List Entity) : List (List Char × Option (List Char)) :=
  entities.foldl (fun acc e =>
    if optInList e.entityType parkEntityTypes then
      if acc.any (fun p => p.1 == e.eid) then
        acc.map (fun p => if p.1 == e.eid then (e.eid, e.ename) else p)
      else acc ++ [(e.eid, e.ename)]
    else acc) []

/-- `save_to_database` (lines 208-274): for each ATTRACTION with a non-null
parkId and a non-empty ride name, append one `wait_times` row. -/
def save_to_database (live : Option (List Entity)) (runTime : Int)
    (wt : List WtRow) : List WtRow :=
  match live with
  | none => wt
  | some entities =>
      let pm := parkMapOf entities
      entities.foldl (fun acc e =>
        if e.entityType == some ("ATTRACTION".toList) then
          match e.parkId with
          | some pid =>
              match e.ename with
              | some ride =>
                  if ride.isEmpty then acc
                  else
                    let parkName := match pm.find? (fun p => p.1 == pid) with
                      | some p => p.2
                      | none => some ("Unknown".toList)
                    let attrType := match e.eventTypeTag with
                      | some t => some t
                      | none => e.entityType
                    let wait := match e.standbyWait with
                      | some w => w
                      | none => none
                    acc ++ [⟨runTime, parkName, ride, wait, e.estatus, attrType⟩]
              | none => acc
          | none => acc
        else acc) wt

/-- Outcome of one collector run. -/
structure CollectRunResult where
  db : DbState
  exitCode : Nat
  dbOpened : Bool
deriving DecidableEq, Repr

/-- `main` of `collect.py` (lines 276-330): exit 1 when the live fetch fails;
exit 0 before opening any database connection when all four main parks report
CLOSED; otherwise open the connection and run both savers. -/
def mainCollect (api sched : Option (Option (List Entity))) (runTime : Int)
    (nowDate : List Char) (db : DbState) : CollectRunResult :=
  match api with
  | none => ⟨db, 1, false⟩
  | some live =>
      let ps := get_main_park_data live
      if !ps.isEmpty && (ps.length == 4) && ps.all (fun p => p.2 == closedStr) then
        ⟨db, 0, false⟩
      else
        ⟨⟨save_to_database live runTime db.waitTimes,
          save_daily_park_data sched nowDate db.parkOperatingData⟩, 0, true⟩

/-- C9: All-parks-closed short-circuit.  When the live data yields statuses for
all four main parks and every status is CLOSED, `main` exits 0 without opening
a database connection and with both tables unchanged; when fewer than four
parks are found or some park is not CLOSED, it opens the connection and runs
both savers. -/
theorem C9_all_closed_short_circuit (live : Option (List Entity))
    (sched : Option (Option (List Entity))) (runTime : Int) (nowDate : List Char)
    (db : DbState) :
    ((get_main_park_data live).length = 4 ∧
        (∀ p ∈ get_main_park_data live, p.2 = closedStr) →
      mainCollect (some live) sched runTime nowDate db = ⟨db, 0, false⟩) ∧
    ((get_main_park_data live).length ≠ 4 ∨ (∃ p ∈ get_main_park_data live, p.2 ≠ closedStr) →
      mainCollect (some live) sched runTime nowDate db =
        ⟨⟨save_to_database live runTime db.waitTimes,
          save_daily_park_data sched nowDate db.parkOperatingData⟩, 0, true⟩) := by
  constructor
  · rintro ⟨hlen, hclosed⟩
    simp only [mainCollect]
    rw [if_pos]
    have h1 : (get_main_park_data live).isEmpty = false := by
      cases hps : get_main_park_data live with
      | nil => rw [hps] at hlen; simp at hlen
      | cons a l => rfl
    have h3 : (get_main_park_data live).all (fun p => p.2 == closedStr) = true := by
      rw [List.all_eq_true]
      intro p hp
      simp [hclosed p hp]
    simp [h1, h3, hlen]
  · intro hbad
    simp only [mainCollect]
    rw [if_neg]
    intro hcond
    simp only [Bool.and_eq_true, Bool.not_eq_true', List.isEmpty_eq_false, beq_iff_eq,
      List.all_eq_true] at hcond
    rcases hbad with hlen | ⟨p, hp, hne⟩
    · exact hlen hcond.1.2
    · exact hne (by simpa using hcond.2 p hp)

/-- One main-park live entity with the given name and status. -/
def parkEnt (n st : List Char) : Entity :=
  ⟨[], some ("THEME_PARK".toList), some n, some st, none, none, none, [], none⟩

/-- All four main parks reporting CLOSED. -/
def liveClosedW : List Entity := mainParkNames.map (fun n => parkEnt n closedStr)

/-- Only one park found, and it is open. -/
def liveOpenW : List Entity := [parkEnt ("Epcot".toList) ("OPERATING".toList)]

def dbW : DbState := ⟨[], []⟩

theorem C9_all_closed_short_circuit_witness :
    (mainCollect (some (some liveClosedW)) none 0 [] dbW = ⟨dbW, 0, false⟩) ∧
    (mainCollect (some (some liveOpenW)) none 0 [] dbW =
      ⟨⟨save_to_database (some liveOpenW) 0 dbW.waitTimes,
        save_daily_park_data none [] dbW.parkOperatingData⟩, 0, true⟩) :=
  ⟨(C9_all_closed_short_circuit (some liveClosedW) none 0 [] dbW).1 (by decide),
   (C9_all_closed_short_circuit (some liveOpenW) none 0 [] dbW).2 (by decide)⟩

/-- Number of rows of the table carrying the given (park_name, data_date) key. -/
def podCountKey (k : List Char × List Char) (tbl : List PodRow) : Nat :=
  (tbl.filter (fun r => r.parkName == k.1 && r.dataDate == k.2)).length

theorem insertPod_count_le (k : List Char × List Char) (t : List PodRow) (r : PodRow) :
    podCountKey k (insertPodOnConflict t r) ≤ max (podCountKey k t) 1 := by
  unfold insertPodOnConflict
  by_cases hk : hasKey r t = true
  · rw [if_pos hk]
    exact le_max_left _ _
  · rw [if_neg hk]
    unfold podCountKey
    rw [List.filter_append]
    by_cases hr : (r.parkName == k.1 && r.dataDate == k.2) = true
    · have hk1 : k.1 = r.parkName := by
        have := (Bool.and_eq_true _ _).mp hr
        exact (beq_iff_eq.mp this.1).symm
      have hk2 : k.2 = r.dataDate := by
        have := (Bool.and_eq_true _ _).mp hr
        exact (beq_iff_eq.mp this.2).symm
      have hzero : (t.filter (fun x => x.parkName == k.1 && x.dataDate == k.2)).length = 0 := by
        rw [List.length_eq_zero, List.filter_eq_nil_iff]
        intro x hx
        have hany := hk
        unfold hasKey at hany
        rw [Bool.not_eq_true] at hany
        have := List.any_eq_false.mp hany x hx
        rw [hk1, hk2]
        exact this
      rw [List.length_append, hzero]
      simp [List.filter, hr]
    · have : List.filter (fun x => x.parkName == k.1 && x.dataDate == k.2) [r] = [] := by
        simp only [List.filter, hr]
      rw [List.length_append, this]
      simp only [List.length_nil, Nat.add_zero]
      exact le_max_left _ _

theorem dailyStep_count_le (k : List Char × List Char) (nowDate : List Char)
    (t : List PodRow) (e : Entity) :
    podCountKey k (dailyStep nowDate t e) ≤ max (podCountKey k t) 1 := by
  cases hn : e.ename with
  | none =>
      simp only [dailyStep, hn]
      exact le_max_left _ _
  | some n =>
      simp only [dailyStep, hn]
      by_cases hd : decide (n ∈ mainParkNames) = true
      · rw [if_pos hd]
        exact insertPod_count_le k t _
      · rw [if_neg hd]
        exact le_max_left _ _

theorem foldl_daily_count_le (k : List Char × List Char) (nowDate : List Char) :
    ∀ (es : List Entity) (t : List PodRow),
      podCountKey k (es.foldl (dailyStep nowDate) t) ≤ max (podCountKey k t) 1 := by
  intro es
  induction es with
  | nil => intro t; exact le_max_left _ _
  | cons e es ih =>
    intro t
    have h1 := ih (dailyStep nowDate t e)
    have h2 := dailyStep_count_le k nowDate t e
    simp only [List.foldl_cons]
    omega

theorem hasKey_insert_mono {r : PodRow} {t : List PodRow} (r2 : PodRow)
    (h : hasKey r t = true) : hasKey r (insertPodOnConflict t r2) = true := by
  unfold insertPodOnConflict
  by_cases hk : hasKey r2 t = true
  · rw [if_pos hk]; exact h
  · rw [if_neg hk]
    unfold hasKey at h ⊢
    rw [List.any_append, h]
    rfl

theorem hasKey_step_mono {r : PodRow} {t : List PodRow} (nowDate : List Char) (e : Entity)
    (h : hasKey r t = true) : hasKey r (dailyStep nowDate t e) = true := by
  cases hn : e.ename with
  | none =>
      simp only [dailyStep, hn]
      exact h
  | some n =>
      simp only [dailyStep, hn]
      by_cases hd : decide (n ∈ mainParkNames) = true
      · rw [if_pos hd]
        exact hasKey_insert_mono _ h
      · rw [if_neg hd]
        exact h

theorem hasKey_foldl_mono {r : PodRow} (nowDate : List Char) :
    ∀ (es : List Entity) (t : List PodRow), hasKey r t = true →
      hasKey r (es.foldl (dailyStep nowDate) t) = true := by
  intro es
  induction es with
  | nil => intro t h; exact h
  | cons e es ih =>
    intro t h
    simp only [List.foldl_cons]
    exact ih _ (hasKey_step_mono nowDate e h)

theorem hasKey_step_self (nowDate : List Char) (t : List PodRow) (e : Entity)
    (n : List Char) (hn : e.ename = some n) (hmem : n ∈ mainParkNames) :
    hasKey (podRowOf e nowDate n) (dailyStep nowDate t e) = true := by
  simp only [dailyStep, hn]
  rw [if_pos (decide_eq_true hmem)]
  unfold insertPodOnConflict
  by_cases hk : hasKey (podRowOf e nowDate n) t = true
  · rw [if_pos hk]; exact hk
  · rw [if_neg hk]
    unfold hasKey
    rw [List.any_append]
    simp

theorem hasKey_foldl_self (nowDate : List Char) :
    ∀ (es : List Entity) (t : List PodRow) (e : Entity), e ∈ es →
      ∀ n, e.ename = some n → n ∈ mainParkNames →
      hasKey (podRowOf e nowDate n) (es.foldl (dailyStep nowDate) t) = true := by
  intro es
  induction es with
  | nil => intro t e he; exact absurd he (List.not_mem_nil e)
  | cons e0 es ih =>
    intro t e he n hn hmem
    simp only [List.foldl_cons]
    rcases List.mem_cons.mp he with rfl | he
    · exact hasKey_foldl_mono nowDate es _ (hasKey_step_self nowDate t e n hn hmem)
    · exact ih _ e he n hn hmem

theorem foldl_daily_noop (nowDate : List Char) :
    ∀ (es : List Entity) (t : List PodRow),
      (∀ e ∈ es, ∀ n, e.ename = some n → n ∈ mainParkNames →
        hasKey (podRowOf e nowDate n) t = true) →
      es.foldl (dailyStep nowDate) t = t := by
  intro es
  induction es with
  | nil => intro t _; rfl
  | cons e es ih =>
    intro t h
    have hstep : dailyStep nowDate t e = t := by
      cases hn : e.ename with
      | none => simp only [dailyStep, hn]
      | some n =>
          simp only [dailyStep, hn]
          by_cases hmem : decide (n ∈ mainParkNames) = true
          · rw [if_pos hmem]
            unfold insertPodOnConflict
            rw [if_pos (h e (List.mem_cons_self _ _) n hn (of_decide_eq_true hmem))]
          · rw [if_neg hmem]
    simp only [List.foldl_cons, hstep]
    exact ih t (fun e2 he2 n hn hmem => h e2 (List.mem_cons_of_mem _ he2) n hn hmem)

/-- C10: Idempotent daily park-data saving.  One call inserts at most one
`park_operating_data` row per (park_name, data_date) pair — the insert is
conflict-do-nothing on that pair — and a second call with the same input is a
no-op, so re-running the collector on the same day never duplicates a park's
daily row. -/
theorem C10_daily_upsert_idempotent (sched : Option (Option (List Entity)))
    (nowDate : List Char) (tbl : List PodRow) :
    (∀ k : List Char × List Char,
      podCountKey k (save_daily_park_data sched nowDate tbl) ≤
        max (podCountKey k tbl) 1) ∧
    save_daily_park_data sched nowDate (save_daily_park_data sched nowDate tbl) =
      save_daily_park_data sched nowDate tbl := by
  constructor
  · intro k
    match sched with
    | none => exact le_max_left _ _
    | some none => exact le_max_left _ _
    | some (some es) => exact foldl_daily_count_le k nowDate es tbl
  · match sched with
    | none => rfl
    | some none => rfl
    | some (some es) =>
        simp only [save_daily_park_data]
        exact foldl_daily_noop nowDate es _
          (fun e he n hn hmem => hasKey_foldl_self nowDate es tbl e he n hn hmem)

end DisneyArchive
